import Mathlib

/-!
Verification of the `ml-service` pipeline of the textbook-tts repository.

The development shallowly embeds the pure text algorithms of
`ml_worker.py` / `supertonic_worker.py` / `worker_utils.py` (markdown
normalisation for TTS, sentence splitting) as executable functions on
`List Char`, and models the three Celery task bodies (`parse_pdf_task`,
the ml_worker `convert_to_audio_task` and the supertonic
`convert_to_audio_task`) as functions from an environment describing the
external world (database availability, CUDA availability, injected
failures of the fallible external steps, sizes) to the list of observable
events (job-table writes, files-table writes, uploads, temp-file removal)
together with the task's outcome (returned value or raised exception).
-/

namespace TTS

/-- Strings are modelled as lists of characters. -/
abbrev Str := List Char

/-- The backquote character (code 96), written by code point. -/
def btick : Char := Char.ofNat 96

/-- Python `\s` on ASCII text: space, tab, newline, carriage return,
vertical tab, form feed.  (`str.strip()` uses the same set.) -/
def isWs (c : Char) : Bool :=
  c = ' ' || c = '\t' || c = '\n' || c = '\r' || c = Char.ofNat 11 || c = Char.ofNat 12

/-- Terminal sentence punctuation, the class `[.!?]` of the splitting regex. -/
def isTerm (c : Char) : Bool :=
  c = '.' || c = '!' || c = '?'

/-- Does the string start with a literal space?  (`' +'` can only start
matching at a space.) -/
def headIsSpace : Str → Bool
  | ' ' :: _ => true
  | _ => false

/-- Does the string start with a whitespace character? -/
def headIsWs : Str → Bool
  | c :: _ => isWs c
  | _ => false

/-! ### Sentence splitting

`ml_worker.py` lines 512 and 650 both split with
`re.split(r'(?<=[.!?]) +', text)`: the text is cut at every maximal run
of literal spaces whose preceding character is `.`, `!` or `?`; the run
of spaces is consumed, and the final remainder (possibly empty) is always
an element of the result.  `splitGo` is a direct scanner translation:
the `Nat` argument is the number of already-matched separator characters
still to be discarded. -/

def splitGo : Nat → Str → Str → List Str
  | _, acc, [] => [acc]
  | Nat.succ k, acc, _ :: rest => splitGo k acc rest
  | 0, acc, c :: rest =>
    if isTerm c && headIsSpace rest then
      (acc ++ [c]) :: splitGo (rest.takeWhile (· = ' ')).length [] rest
    else
      splitGo 0 (acc ++ [c]) rest

/-- `re.split(r'(?<=[.!?]) +', s)` from `parse_pdf_task` and the
ml_worker `convert_to_audio_task`. -/
def splitSentences (s : Str) : List Str := splitGo 0 [] s

/-- Index of the first boundary position under boundary test `p`:
least `i` such that `s[i]` is terminal punctuation and `s[i+1]`
satisfies `p` (via `headIs`).  Used by the declarative splitting
specifications. -/
def firstBoundaryBy (p : Str → Bool) : Str → Option Nat
  | [] => none
  | c :: rest =>
    if isTerm c && p rest then some 0
    else (firstBoundaryBy p rest).map (· + 1)

theorem length_dropWhile_le (q : Char → Bool) :
    ∀ s : Str, (s.dropWhile q).length ≤ s.length := by
  intro s
  induction s with
  | nil => simp [List.dropWhile]
  | cons c rest ih =>
    rw [List.dropWhile]
    by_cases hq : q c
    · simp only [hq]; simpa using Nat.le_succ_of_le ih
    · simp [hq]

theorem firstBoundaryBy_lt (p : Str → Bool) :
    ∀ (s : Str) (i : Nat), firstBoundaryBy p s = some i → i < s.length := by
  intro s
  induction s with
  | nil => intro i h; simp [firstBoundaryBy] at h
  | cons c rest ih =>
    intro i h
    rw [firstBoundaryBy] at h
    by_cases hb : isTerm c && p rest
    · simp [hb] at h; simp [← h]
    · simp [hb] at h
      obtain ⟨j, hj, rfl⟩ := h
      have := ih j hj
      simp; omega

/-- Declarative splitting, following the specification text: a sentence
ends immediately after a `.`, `!` or `?` followed by a separator
character (test `sep` for the first following character, the run of
characters satisfying `run` being consumed), and any trailing remainder
is its own sentence. -/
def splitSpecBy (sep : Str → Bool) (run : Char → Bool) (s : Str) : List Str :=
  match h : firstBoundaryBy sep s with
  | none => [s]
  | some i => (s.take (i + 1)) :: splitSpecBy sep run ((s.drop (i + 1)).dropWhile run)
termination_by s.length
decreasing_by
  have h1 := firstBoundaryBy_lt sep s i h
  have h2 : ((s.drop (i + 1)).dropWhile run).length ≤ (s.drop (i + 1)).length :=
    length_dropWhile_le _ _
  simp at h2 ⊢
  omega

theorem splitSpecBy_none (sep : Str → Bool) (run : Char → Bool) (s : Str)
    (h : firstBoundaryBy sep s = none) : splitSpecBy sep run s = [s] := by
  rw [splitSpecBy.eq_def]
  split
  · rfl
  · next i hi => rw [h] at hi; exact absurd hi (by simp)

theorem splitSpecBy_some (sep : Str → Bool) (run : Char → Bool) (s : Str) (i : Nat)
    (h : firstBoundaryBy sep s = some i) :
    splitSpecBy sep run s =
      (s.take (i + 1)) :: splitSpecBy sep run ((s.drop (i + 1)).dropWhile run) := by
  rw [splitSpecBy.eq_def]
  split
  · next hn => rw [h] at hn; exact absurd hn (by simp)
  · next j hj =>
    rw [h] at hj
    cases hj
    rfl

/-- The specification's boundary rule with "followed by whitespace", as the
claim states it. -/
def splitSpecWs (s : Str) : List Str := splitSpecBy headIsWs isWs s

/-- The boundary rule with "followed by a space", matching the `' +'` of
the source regex. -/
def splitSpecSpace (s : Str) : List Str := splitSpecBy headIsSpace (· = ' ') s

theorem splitSpecBy_ne_nil (sep : Str → Bool) (run : Char → Bool) (s : Str) :
    splitSpecBy sep run s ≠ [] := by
  cases h : firstBoundaryBy sep s with
  | none => rw [splitSpecBy_none _ _ _ h]; simp
  | some i => rw [splitSpecBy_some _ _ _ i h]; simp

theorem splitGo_skip : ∀ (k : Nat) (acc s : Str), splitGo k acc s = splitGo 0 acc (s.drop k) := by
  intro k
  induction k with
  | zero => intro acc s; simp
  | succ k ih =>
    intro acc s
    cases s with
    | nil => rfl
    | cons c rest =>
      rw [splitGo, List.drop_succ_cons]
      exact ih acc rest

theorem drop_length_takeWhile (q : Char → Bool) :
    ∀ s : Str, s.drop (s.takeWhile q).length = s.dropWhile q := by
  intro s
  induction s with
  | nil => rfl
  | cons c rest ih =>
    rw [List.takeWhile_cons, List.dropWhile_cons]
    by_cases hq : q c
    · simp [hq, ih]
    · simp [hq]

/-- Attach an accumulator to the first element of a split result. -/
def consHead (acc : Str) : List Str → List Str
  | [] => [acc]
  | t :: ts => (acc ++ t) :: ts

theorem splitGo_spec (s acc : Str) :
    splitGo 0 acc s = consHead acc (splitSpecBy headIsSpace (· = ' ') s) := by
  match s with
  | [] =>
    rw [splitGo, splitSpecBy_none _ _ _ (by rfl)]
    simp [consHead]
  | c :: rest =>
    by_cases hb : isTerm c && headIsSpace rest
    · have ih := splitGo_spec (rest.dropWhile (· = ' ')) []
      rw [splitGo]
      simp only [hb, if_true]
      rw [splitGo_skip, drop_length_takeWhile, ih]
      have hfb : firstBoundaryBy headIsSpace (c :: rest) = some 0 := by
        rw [firstBoundaryBy]; simp [hb]
      rw [splitSpecBy_some _ _ _ 0 hfb]
      simp only [List.take_succ_cons, List.take_zero, List.drop_succ_cons, List.drop_zero]
      cases hS : splitSpecBy headIsSpace (· = ' ') (rest.dropWhile (· = ' ')) with
      | nil => exact absurd hS (splitSpecBy_ne_nil _ _ _)
      | cons t ts => simp [consHead]
    · have ih := splitGo_spec rest (acc ++ [c])
      rw [splitGo]
      simp only [hb, if_false, Bool.false_eq_true]
      rw [ih]
      have hfb : firstBoundaryBy headIsSpace (c :: rest) =
          (firstBoundaryBy headIsSpace rest).map (· + 1) := by
        rw [firstBoundaryBy]; simp [hb]
      cases hf : firstBoundaryBy headIsSpace rest with
      | none =>
        rw [hf] at hfb; simp only [Option.map_none'] at hfb
        rw [splitSpecBy_none _ _ _ hfb, splitSpecBy_none _ _ _ hf]
        simp [consHead]
      | some j =>
        rw [hf] at hfb; simp only [Option.map_some'] at hfb
        rw [splitSpecBy_some _ _ _ (j + 1) hfb, splitSpecBy_some _ _ _ j hf]
        simp only [List.take_succ_cons, List.drop_succ_cons, consHead]
        simp [List.append_assoc]
termination_by s.length
decreasing_by
  · have := length_dropWhile_le (· = ' ') rest
    simp; omega
  · simp

/-! ### The text normalizer `clean_markdown_for_tts`

`ml_worker.py` lines 258-335 apply a fixed chain of `re.sub` calls.  Each
call is embedded as one left-to-right scanning pass: `subGo` is the
generic driver for patterns without a `^` anchor, `subMlGo` the driver
for the `re.MULTILINE` patterns anchored at `^` (it tracks whether the
current position is a line start, i.e. follows a `'\n'` of the original
text).  A rule is given by its matcher: applied to the remaining text
`t`, the matcher returns `some (rep, n)` (resp. `some (rep, n, a)`) when
the pattern matches the length-`n` prefix of `t` (`n ≥ 1`) with
replacement `rep` (and, for multiline rules, `a` tells whether the
position after the match is a line start, i.e. whether the last matched
character is a newline).  On `none` the scan advances one character, as
`re.sub` advances its match attempt position.  All quantified
subpatterns of the source regexes are character classes, and consecutive
quantified classes are pairwise disjoint, so Python's
greedy-with-backtracking matching is equivalent to the greedy maximal-run
matching used by the matchers (the final `.*$` of the two line-oriented
patterns always succeeds after a maximal `\s*` run, `$` holding at the
following newline or end of text). -/

def subGo (m : Str → Option (Str × Nat)) : Nat → Str → Str
  | _, [] => []
  | Nat.succ k, _ :: rest => subGo m k rest
  | 0, c :: rest =>
    match m (c :: rest) with
    | some (rep, n) => rep ++ subGo m (n - 1) rest
    | none => c :: subGo m 0 rest

def subMlGo (m : Str → Option (Str × Nat × Bool)) : Nat → Bool → Str → Str
  | _, _, [] => []
  | Nat.succ k, a, _ :: rest => subMlGo m k a rest
  | 0, a, c :: rest =>
    if a then
      match m (c :: rest) with
      | some (rep, n, a2) => rep ++ subMlGo m (n - 1) a2 rest
      | none => c :: subMlGo m 0 (c = '\n') rest
    else c :: subMlGo m 0 (c = '\n') rest

/-- Is the last character of the matched run a newline (so that the
position after the match is a line start)? -/
def lastIsNl (w : Str) : Bool :=
  match w.getLast? with
  | some c => c = '\n'
  | none => false

/-- Length of the shortest prefix of `s` ending with three backquotes:
the lazy `[\s\S]*?` of the code-fence pattern stops at the earliest
closing fence. -/
def fenceEnd : Str → Option Nat
  | [] => none
  | c :: rest =>
    if c = btick ∧ rest.take 2 = [btick, btick] then some 3
    else (fenceEnd rest).map (· + 1)

/-- Matcher for ``re.sub(r'```[\s\S]*?```', '', text)``. -/
def tryCodeBlock (t : Str) : Option (Str × Nat) :=
  match t with
  | a :: b :: c :: rest =>
    if a = btick ∧ b = btick ∧ c = btick then
      (fenceEnd rest).map (fun n => ([], 3 + n))
    else none
  | _ => none

/-- Matcher for the inline-code pattern (single backquote, one or more
non-backquote characters, single backquote; the inner text is kept). -/
def tryInlineCode (t : Str) : Option (Str × Nat) :=
  match t with
  | c :: rest =>
    if c = btick then
      let r := rest.takeWhile (· ≠ btick)
      if r ≠ [] ∧ rest.dropWhile (· ≠ btick) ≠ [] then some (r, r.length + 2)
      else none
    else none
  | [] => none

/-- Matcher for `re.sub(r'\[([^\]]+)\]\([^\)]+\)', r'\1', text)`. -/
def tryLink (t : Str) : Option (Str × Nat) :=
  match t with
  | c :: rest =>
    if c = '[' then
      let tx := rest.takeWhile (· ≠ ']')
      let r1 := rest.dropWhile (· ≠ ']')
      if tx ≠ [] ∧ r1.take 2 = [']', '('] then
        let u := (r1.drop 2).takeWhile (· ≠ ')')
        if u ≠ [] ∧ (r1.drop 2).dropWhile (· ≠ ')') ≠ [] then
          some (tx, tx.length + u.length + 4)
        else none
      else none
    else none
  | [] => none

/-- Matcher for `re.sub(r'!\[([^\]]*)\]\([^\)]+\)', '', text)`. -/
def tryImage (t : Str) : Option (Str × Nat) :=
  match t with
  | c :: d :: rest =>
    if c = '!' ∧ d = '[' then
      let tx := rest.takeWhile (· ≠ ']')
      let r1 := rest.dropWhile (· ≠ ']')
      if r1.take 2 = [']', '('] then
        let u := (r1.drop 2).takeWhile (· ≠ ')')
        if u ≠ [] ∧ (r1.drop 2).dropWhile (· ≠ ')') ≠ [] then
          some ([], tx.length + u.length + 5)
        else none
      else none
    else none
  | _ => none

/-- Matcher for `re.sub(r'\[([^\]]+)\]\[[^\]]*\]', r'\1', text)`. -/
def tryRefLink (t : Str) : Option (Str × Nat) :=
  match t with
  | c :: rest =>
    if c = '[' then
      let tx := rest.takeWhile (· ≠ ']')
      let r1 := rest.dropWhile (· ≠ ']')
      if tx ≠ [] ∧ r1.take 2 = [']', '['] then
        let r := (r1.drop 2).takeWhile (· ≠ ']')
        if (r1.drop 2).dropWhile (· ≠ ']') ≠ [] then
          some (tx, tx.length + r.length + 4)
        else none
      else none
    else none
  | [] => none

/-- Matcher for `re.sub(r'^\[[^\]]+\]:\s*.*$', '', text, flags=re.MULTILINE)`.
The greedy `\s*` may cross newlines; `.*` then extends to the end of the
line holding the first non-whitespace character, where `$` holds. -/
def tryLinkDef (t : Str) : Option (Str × Nat × Bool) :=
  match t with
  | c :: rest =>
    if c = '[' then
      let tx := rest.takeWhile (· ≠ ']')
      let r1 := rest.dropWhile (· ≠ ']')
      if tx ≠ [] ∧ r1.take 2 = [']', ':'] then
        let w := (r1.drop 2).takeWhile isWs
        let d := ((r1.drop 2).dropWhile isWs).takeWhile (· ≠ '\n')
        some ([], tx.length + 3 + w.length + d.length, false)
      else none
    else none
  | [] => none

/-- Matcher for `re.sub(r'^#{1,6}\s+', '', text, flags=re.MULTILINE)`:
one to six hashes at a line start followed by at least one whitespace
character (seven or more hashes never match, nor do hashes without
following whitespace). -/
def tryHeading (t : Str) : Option (Str × Nat × Bool) :=
  match t with
  | c :: rest =>
    if c = '#' then
      let hs := rest.takeWhile (· = '#')
      let w := (rest.dropWhile (· = '#')).takeWhile isWs
      if hs.length + 1 ≤ 6 ∧ w ≠ [] then
        some ([], hs.length + 1 + w.length, lastIsNl w)
      else none
    else none
  | [] => none

/-- Matcher for the emphasis patterns `D^k([^D]+)D^k` with marker
character `d` repeated `k` times (bold+italic, bold, italic,
strikethrough); the inner text is kept. -/
def tryEmph (d : Char) (k : Nat) (t : Str) : Option (Str × Nat) :=
  if t.take k = List.replicate k d then
    let r := (t.drop k).takeWhile (· ≠ d)
    if r ≠ [] ∧ ((t.drop k).dropWhile (· ≠ d)).take k = List.replicate k d then
      some (r, r.length + 2 * k)
    else none
  else none

def isBullet (c : Char) : Bool := c = '-' || c = '*' || c = '+'

/-- Matcher for `re.sub(r'^\s*[-*+]\s+', '', text, flags=re.MULTILINE)`. -/
def tryBullet (t : Str) : Option (Str × Nat × Bool) :=
  let w1 := t.takeWhile isWs
  match t.dropWhile isWs with
  | mk :: r2 =>
    if isBullet mk then
      let w2 := r2.takeWhile isWs
      if w2 ≠ [] then some ([], w1.length + 1 + w2.length, lastIsNl w2)
      else none
    else none
  | [] => none

def isHrChar (c : Char) : Bool := c = '-' || c = '*' || c = '_'

/-- Split a string just before its last newline, if any. -/
def lastNlSplit : Str → Option (Str × Str)
  | [] => none
  | c :: rest =>
    match lastNlSplit rest with
    | some (a, b) => some (c :: a, b)
    | none => if c = '\n' then some ([], c :: rest) else none

/-- Matcher for `re.sub(r'^[\s]*[-*_]{3,}[\s]*$', '', text, flags=re.MULTILINE)`.
After the run of three or more rule characters, the greedy trailing
`[\s]*` must end where `$` holds: at the end of the text, or just before
the last newline of the whitespace run. -/
def tryHr (t : Str) : Option (Str × Nat × Bool) :=
  let w1 := t.takeWhile isWs
  let r1 := t.dropWhile isWs
  let d := r1.takeWhile isHrChar
  if 3 ≤ d.length then
    let r2 := r1.dropWhile isHrChar
    let w2 := r2.takeWhile isWs
    if r2.dropWhile isWs = [] then
      some ([], w1.length + d.length + w2.length, lastIsNl w2)
    else
      match lastNlSplit w2 with
      | some (a, _) => some ([], w1.length + d.length + a.length, lastIsNl a)
      | none => none
  else none

/-- Matcher for `re.sub(r'<[^>]+>', '', text)`. -/
def tryTag (t : Str) : Option (Str × Nat) :=
  match t with
  | c :: rest =>
    if c = '<' then
      let r := rest.takeWhile (· ≠ '>')
      if r ≠ [] ∧ rest.dropWhile (· ≠ '>') ≠ [] then some ([], r.length + 2)
      else none
    else none
  | [] => none

/-- Matcher for `re.sub(r'^>\s+', '', text, flags=re.MULTILINE)`. -/
def tryBlockquote (t : Str) : Option (Str × Nat × Bool) :=
  match t with
  | c :: rest =>
    if c = '>' then
      let w := rest.takeWhile isWs
      if w ≠ [] then some ([], 1 + w.length, lastIsNl w) else none
    else none
  | [] => none

/-- Matcher for the table-separator pattern
`^\|?[\s]*:?-+:?[\s]*\|[\s]*:?-+:?[\s]*.*$` (MULTILINE): optional pipe,
whitespace, optional colon, dashes, optional colon, whitespace, a
required pipe, the same again, then the rest of the line. -/
def tryTableSep (t : Str) : Option (Str × Nat × Bool) :=
  let c1 : Nat := if t.take 1 = ['|'] then 1 else 0
  let t1 := t.drop c1
  let w1 := t1.takeWhile isWs
  let t2 := t1.dropWhile isWs
  let c2 : Nat := if t2.take 1 = [':'] then 1 else 0
  let t3 := t2.drop c2
  let d1 := t3.takeWhile (· = '-')
  if d1 = [] then none
  else
    let t4 := t3.dropWhile (· = '-')
    let c3 : Nat := if t4.take 1 = [':'] then 1 else 0
    let t5 := t4.drop c3
    let w2 := t5.takeWhile isWs
    let t6 := t5.dropWhile isWs
    if t6.take 1 = ['|'] then
      let t7 := t6.drop 1
      let w3 := t7.takeWhile isWs
      let t8 := t7.dropWhile isWs
      let c4 : Nat := if t8.take 1 = [':'] then 1 else 0
      let t9 := t8.drop c4
      let d2 := t9.takeWhile (· = '-')
      if d2 = [] then none
      else
        let t10 := t9.dropWhile (· = '-')
        let c5 : Nat := if t10.take 1 = [':'] then 1 else 0
        let t11 := t10.drop c5
        let w4 := t11.takeWhile isWs
        let t12 := t11.dropWhile isWs
        let rl := t12.takeWhile (· ≠ '\n')
        some ([], c1 + w1.length + c2 + d1.length + c3 + w2.length + 1 + w3.length
          + c4 + d2.length + c5 + w4.length + rl.length, false)
    else none

/-- `re.sub(r'\|', ' ', text)`. -/
def pipesToSpaces (s : Str) : Str := s.map (fun c => if c = '|' then ' ' else c)

/-- Matcher for `re.sub(r' +', ' ', text)`. -/
def trySpaceRun (t : Str) : Option (Str × Nat) :=
  match t with
  | ' ' :: _ => some ([' '], (t.takeWhile (· = ' ')).length)
  | _ => none

/-- Matcher for ``re.sub(r'\n{3,}', '\n\n', text)``. -/
def tryNlRun (t : Str) : Option (Str × Nat) :=
  let r := t.takeWhile (· = '\n')
  if 3 ≤ r.length then some (['\n', '\n'], r.length) else none

/-- Python `text.split('\n')` (keeps empty pieces, result never empty). -/
def splitNl : Str → List Str
  | [] => [[]]
  | c :: rest =>
    if c = '\n' then [] :: splitNl rest
    else
      match splitNl rest with
      | l :: ls => (c :: l) :: ls
      | [] => [[c]]

/-- Python `s.strip()` on ASCII text. -/
def stripStr (s : Str) : Str := ((s.dropWhile isWs).reverse.dropWhile isWs).reverse

/-- Python `'\n'.join(pieces)`. -/
def joinNl : List Str → Str
  | [] => []
  | [l] => l
  | l :: ls => l ++ '\n' :: joinNl ls

/-- Line 331: strip every line, keeping the line structure. -/
def stripLines (s : Str) : Str := joinNl ((splitNl s).map stripStr)

def removeCodeBlocks (s : Str) : Str := subGo tryCodeBlock 0 s
def removeInlineCode (s : Str) : Str := subGo tryInlineCode 0 s
def removeLinks (s : Str) : Str := subGo tryLink 0 s
def removeImages (s : Str) : Str := subGo tryImage 0 s
def removeRefLinks (s : Str) : Str := subGo tryRefLink 0 s
def removeLinkDefs (s : Str) : Str := subMlGo tryLinkDef 0 true s
def removeHeadings (s : Str) : Str := subMlGo tryHeading 0 true s
def removeBoldItalicStars (s : Str) : Str := subGo (tryEmph '*' 3) 0 s
def removeBoldStars (s : Str) : Str := subGo (tryEmph '*' 2) 0 s
def removeItalicStars (s : Str) : Str := subGo (tryEmph '*' 1) 0 s
def removeBoldItalicUnders (s : Str) : Str := subGo (tryEmph '_' 3) 0 s
def removeBoldUnders (s : Str) : Str := subGo (tryEmph '_' 2) 0 s
def removeItalicUnders (s : Str) : Str := subGo (tryEmph '_' 1) 0 s
def removeStrike (s : Str) : Str := subGo (tryEmph '~' 2) 0 s
def removeBullets (s : Str) : Str := subMlGo tryBullet 0 true s
def removeHr (s : Str) : Str := subMlGo tryHr 0 true s
def removeTags (s : Str) : Str := subGo tryTag 0 s
def removeBlockquotes (s : Str) : Str := subMlGo tryBlockquote 0 true s
def removeTableSep (s : Str) : Str := subMlGo tryTableSep 0 true s
def collapseSpaces (s : Str) : Str := subGo trySpaceRun 0 s
def collapseNewlines (s : Str) : Str := subGo tryNlRun 0 s

/-- The whole of `clean_markdown_for_tts` (`ml_worker.py` lines 258-335):
the twenty markup-removal substitutions in source order, then whitespace
normalisation (space-run collapse, newline-run collapse, per-line strip,
whole-text strip).  The leading `if` is the `if not text: return ""`
guard. -/
def clean_markdown_for_tts (text : Str) : Str :=
  if text = [] then []
  else
    stripStr (stripLines (collapseNewlines (collapseSpaces (pipesToSpaces
      (removeTableSep (removeBlockquotes (removeTags (removeHr (removeBullets
      (removeStrike (removeItalicUnders (removeBoldUnders (removeBoldItalicUnders
      (removeItalicStars (removeBoldStars (removeBoldItalicStars
      (removeHeadings (removeLinkDefs (removeRefLinks (removeImages
      (removeLinks (removeInlineCode (removeCodeBlocks text)))))))))))))))))))))))

/-- The whitespace-normalisation tail of the pipeline (lines 325-333),
on its own. -/
def wsNormalize (s : Str) : Str :=
  stripStr (stripLines (collapseNewlines (collapseSpaces s)))

theorem splitSentences_eq_splitSpecSpace (s : Str) : splitSentences s = splitSpecSpace s := by
  rw [splitSentences, splitGo_spec, splitSpecSpace]
  cases h : splitSpecBy headIsSpace (· = ' ') s with
  | nil => exact absurd h (splitSpecBy_ne_nil _ _ _)
  | cons t ts => simp [consHead]

/-! ### Models of the three Celery task bodies

Each task is modelled as a function from an environment describing the
behaviour of the external world to the pair of (ordered list of
observable events, outcome).  Events record the database writes to the
job table (`file_parsings` / `file_conversions`), the write of the
derived text fields to the `files` table, storage uploads, and removal
of the parse task's temporary download.  The environment's `failAt`
field injects an exception (with its message) at one of the fallible
external steps; the database helper functions catch their own
exceptions internally and so are not failure points.  Local file
removal, garbage collection and CUDA cache management are modelled as
total, and the convert tasks' temporary audio files are not tracked
(no claim concerns them). -/

inductive JStatus
  | pending
  | running
  | completed
  | failed
deriving DecidableEq

/-- One update of a job row: the fields written (`job_completion`,
`status`, `error_message`), `none` when the field is not part of the
update. -/
structure JWrite where
  progress : Option Nat
  status : Option JStatus
  errorMsg : Option Str
deriving DecidableEq

inductive Ev
  | jobWrite (w : JWrite)
  | filesWrite (parsedText : Str) (rawMarkdown : Option Str)
  | removeTemp
  | upload
deriving DecidableEq

inductive Outcome
  | retErr (msg : Str)
  | retDev
  | retOk
  | raised (msg : Str)
deriving DecidableEq

def fileNotFoundMsg : Str := "Invalid file_id or file not found".data

def noParsedTextMsg : Str := "No parsed text found. Please parse the PDF first.".data

/-- The exception raised by `get_parsed_text(file_id, supabase).replace(...)`
when `get_parsed_text` returns `None`. -/
def attrErrorMsg : Str := "AttributeError: NoneType object has no attribute replace".data

/-- The size-limit error message of `supertonic_worker.py` line 113 (the
interpolated megabyte figure is abstracted away). -/
def sizeLimitMsg : Str := "MP3 file size exceeds Supabase free plan limit of 50 MB".data

def devModeParsedText : Str := "dev mode text".data

/-- Job-table events happen only when the job record was created
(`parsing_id` / `conversion_id` non-`None`); the update helpers return
`False` without writing otherwise. -/
def recEvs (rc : Bool) (l : List Ev) : List Ev := if rc then l else []

/-- Progress-only update (`update_*_progress` with `status=None`). -/
def updW (p : Nat) : Ev := .jobWrite ⟨some p, none, none⟩

/-- Progress update together with a status. -/
def updSt (p : Nat) (st : JStatus) : Ev := .jobWrite ⟨some p, some st, none⟩

/-- The write performed by the `except` handlers:
`{"status": "failed", "job_completion": 0, "error_message": str(e)}`. -/
def failW (m : Str) : Ev := .jobWrite ⟨some 0, some .failed, some m⟩

/-- Fallible external steps of `parse_pdf_task`: the download of the
PDF (lines 452-459), the construction of the marker `PdfConverter`
(line 466), and the conversion itself (lines 472-473). -/
inductive PFail
  | download
  | convInit
  | convRun
deriving DecidableEq

structure PEnv where
  fileInfoOk : Bool
  recordCreated : Bool
  cudaAvailable : Bool
  failAt : Option (PFail × Str)
  text : Str

/-- Model of `parse_pdf_task` (`ml_worker.py` lines 406-592).
Success-path job writes: create (0, pending); (10, running); 20; 25;
40; 65; 75; 90; `finalize_parsing` (100, completed, plus the
`files`-table write when the cleaned text is truthy); 100; temp-file
removal.  The no-CUDA branch finalizes immediately as completed with
placeholder text.  The `except` handler writes
(0, failed, message) and removes the temp file when it exists. -/
def parseRun (e : PEnv) : List Ev × Outcome :=
  if e.fileInfoOk = false then ([], .retErr fileNotFoundMsg)
  else
    let rc := e.recordCreated
    let ev0 := recEvs rc [updSt 0 .pending]
    if e.cudaAvailable = false then
      (ev0 ++ recEvs rc [updSt 100 .completed, .filesWrite devModeParsedText none], .retDev)
    else
      let ev1 := ev0 ++ recEvs rc [updSt 10 .running]
      match e.failAt with
      | some (.download, m) => (ev1 ++ recEvs rc [failW m], .raised m)
      | some (.convInit, m) =>
        (ev1 ++ recEvs rc [updW 20] ++ recEvs rc [failW m] ++ [.removeTemp], .raised m)
      | some (.convRun, m) =>
        (ev1 ++ recEvs rc [updW 20, updW 25] ++ recEvs rc [failW m] ++ [.removeTemp], .raised m)
      | none =>
        let cleaned := clean_markdown_for_tts e.text
        let fin := recEvs rc ([updSt 100 .completed] ++
          (if cleaned ≠ [] then
            [Ev.filesWrite cleaned (if e.text ≠ [] then some e.text else none)]
          else []))
        (ev1 ++ recEvs rc [updW 20, updW 25, updW 40, updW 65, updW 75, updW 90]
          ++ fin ++ recEvs rc [updW 100] ++ [.removeTemp], .retOk)

/-- Fallible external steps of the ml_worker `convert_to_audio_task`:
the TTS model load (line 659), the per-sentence generation (line 676,
carrying the failing sentence index), and the WAV save / MP3 export
(lines 696-702). -/
inductive CFail
  | modelLoad
  | ttsGen (i : Nat)
  | saveWav
  | toMp3
deriving DecidableEq

structure CEnv where
  fileInfoOk : Bool
  parsedText : Option Str
  recordCreated : Bool
  cudaAvailable : Bool
  failAt : Option (CFail × Str)
  uploadOk : Bool

/-- The progress writes of the TTS loop: before generating sentence `i`
the task writes `30 + int(((i + 1) / len(sentences)) * 40)` (modelled
with exact natural division; float rounding cannot cross an integer in a
direction that changes any claim, and monotonicity is shared by both
readings). -/
def ttsLoopEvs (rc : Bool) (n : Nat) (upto : Nat) : List Ev :=
  recEvs rc ((List.range upto).map fun i => updW (30 + 40 * (i + 1) / n))

/-- Events of the ml_worker convert task after the (20) write, when no
failure is injected: (30); the loop; (75); (85); (95); the upload
attempt; `finalize_conversion` (100, completed) on upload success or
(100, failed) on upload failure; (100).  Either way the task returns its
success dictionary. -/
def convertTailEvs (rc : Bool) (n : Nat) (uploadOk : Bool) : List Ev :=
  recEvs rc [updW 30] ++ ttsLoopEvs rc n n ++ recEvs rc [updW 75, updW 85, updW 95]
    ++ [.upload]
    ++ recEvs rc [updSt 100 (if uploadOk then .completed else .failed)]
    ++ recEvs rc [updW 100]

/-- Model of the ml_worker `convert_to_audio_task` (`ml_worker.py`
lines 595-888).  The parsed-text precondition (lines 614-617) is
checked before the conversion record is created; a missing or empty
text returns the error dictionary with no event.  An injected
`ttsGen i` failure with `i ≥ n` never fires (the loop has `n`
iterations). -/
def convertRun (e : CEnv) : List Ev × Outcome :=
  if e.fileInfoOk = false then ([], .retErr fileNotFoundMsg)
  else
    match e.parsedText with
    | none => ([], .retErr noParsedTextMsg)
    | some t =>
      if t = [] then ([], .retErr noParsedTextMsg)
      else
        let rc := e.recordCreated
        let ev0 := recEvs rc [updSt 0 .pending]
        if e.cudaAvailable = false then
          (ev0 ++ recEvs rc [updSt 100 .completed], .retDev)
        else
          let n := (splitSentences t).length
          let ev1 := ev0 ++ recEvs rc [updSt 10 .running, updW 20]
          match e.failAt with
          | some (.modelLoad, m) => (ev1 ++ recEvs rc [failW m], .raised m)
          | some (.ttsGen k, m) =>
            if k < n then
              (ev1 ++ recEvs rc [updW 30] ++ ttsLoopEvs rc n (k + 1)
                ++ recEvs rc [failW m], .raised m)
            else (ev1 ++ convertTailEvs rc n e.uploadOk, .retOk)
          | some (.saveWav, m) =>
            (ev1 ++ recEvs rc [updW 30] ++ ttsLoopEvs rc n n ++ recEvs rc [updW 75]
              ++ recEvs rc [failW m], .raised m)
          | some (.toMp3, m) =>
            (ev1 ++ recEvs rc [updW 30] ++ ttsLoopEvs rc n n ++ recEvs rc [updW 75]
              ++ recEvs rc [failW m], .raised m)
          | none => (ev1 ++ convertTailEvs rc n e.uploadOk, .retOk)

/-- Python `s.replace("\n", ". ")`. -/
def replaceNl : Str → Str
  | [] => []
  | c :: rest => (if c = '\n' then ['.', ' '] else [c]) ++ replaceNl rest

/-- Lines 71-72 of `supertonic_worker.py`: replace newlines by ". ",
then append a terminal period unless the text already ends with one. -/
def massage (t : Str) : Str :=
  let r := replaceNl t
  r ++ (if r.getLast? = some '.' then [] else ['.'])

/-- Fallible external steps of the supertonic `convert_to_audio_task`:
voice-style load (line 97), TTS synthesis (lines 99-100), WAV save
(line 103), MP3 export (lines 106-107). -/
inductive SFail
  | styleLoad
  | ttsRun
  | saveWav
  | toMp3
deriving DecidableEq

structure SEnv where
  fileInfoOk : Bool
  parsedText : Option Str
  recordCreated : Bool
  failAt : Option (SFail × Str)
  mp3SizeBytes : Nat
  uploadOk : Bool

/-- Model of the supertonic `convert_to_audio_task`
(`supertonic_worker.py` lines 57-195).  When `get_parsed_text` returns
`None`, line 71 raises `AttributeError` before any record exists; the
`if not parsed_text` branch of lines 74-76 is kept from the source even
though line 72 makes it unreachable.  The CUDA check of the ml_worker
variant is commented out in this file.  The size check of line 112
(`file_size_mb > 50` with `file_size_mb = bytes / 1024 / 1024` as a
float) is modelled exactly as `50 * 1024 * 1024 < bytes`; on overflow
the task calls `finalize_conversion(..., "failed")` — writing
(100, failed) — then raises, so the `except` handler writes
(0, failed, message) and no upload is attempted.  All four fallible
steps observably behave alike on failure. -/
def supertonicRun (e : SEnv) : List Ev × Outcome :=
  if e.fileInfoOk = false then ([], .retErr fileNotFoundMsg)
  else
    match e.parsedText with
    | none => ([], .raised attrErrorMsg)
    | some t0 =>
      let t := massage t0
      if t = [] then ([], .retErr noParsedTextMsg)
      else
        let rc := e.recordCreated
        let ev1 := recEvs rc [updSt 0 .pending] ++ recEvs rc [updSt 10 .running]
        match e.failAt with
        | some (_, m) => (ev1 ++ recEvs rc [failW m], .raised m)
        | none =>
          if 50 * 1024 * 1024 < e.mp3SizeBytes then
            (ev1 ++ recEvs rc [updSt 100 .failed] ++ recEvs rc [failW sizeLimitMsg],
              .raised sizeLimitMsg)
          else
            (ev1 ++ recEvs rc [updW 85, updW 95] ++ [.upload]
              ++ recEvs rc [updSt 100 (if e.uploadOk then .completed else .failed)]
              ++ recEvs rc [updW 100], .retOk)

/-- The `job_completion` values written to the job row, in order. -/
def progressWrites (evs : List Ev) : List Nat :=
  evs.filterMap fun e => match e with
    | .jobWrite w => w.progress
    | _ => none

/-- The `status` values written to the job row, in order. -/
def statusWrites (evs : List Ev) : List JStatus :=
  evs.filterMap fun e => match e with
    | .jobWrite w => w.status
    | _ => none

/-- All job-row updates, in order. -/
def jobWrites (evs : List Ev) : List JWrite :=
  evs.filterMap fun e => match e with
    | .jobWrite w => some w
    | _ => none

/-- All `files`-table writes of the derived text fields, in order. -/
def filesWrites (evs : List Ev) : List (Str × Option Str) :=
  evs.filterMap fun e => match e with
    | .filesWrite p r => some (p, r)
    | _ => none

/-- Does `s` contain `pat` as a contiguous run of characters? -/
def containsSeq (pat : Str) : Str → Bool
  | [] => pat = ([] : Str)
  | c :: rest => (c :: rest).take pat.length = pat || containsSeq pat rest

/-! ### Helper lemmas -/

theorem massage_ne_nil (t : Str) : massage t ≠ [] := by
  rw [massage]
  by_cases h : (replaceNl t).getLast? = some '.'
  · rw [if_pos h]
    intro hc
    simp at hc
    rw [hc] at h
    simp at h
  · rw [if_neg h]
    simp

theorem clean_nil : clean_markdown_for_tts [] = [] := by
  rw [clean_markdown_for_tts]
  simp

theorem clean_ne_nil_of_ne {t : Str} (h : clean_markdown_for_tts t ≠ []) : t ≠ [] := by
  intro hc
  rw [hc, clean_nil] at h
  exact h rfl

theorem getLast?_append_right {α : Type} (l₁ : List α) {l₂ : List α} (h : l₂ ≠ []) :
    (l₁ ++ l₂).getLast? = l₂.getLast? := by
  induction l₁ with
  | nil => simp
  | cons c rest ih =>
    rw [List.cons_append, List.getLast?_cons, ih]
    cases l₂ with
    | nil => exact absurd rfl h
    | cons d l => simp [List.getLast?_cons]

theorem progressWrites_append (a b : List Ev) :
    progressWrites (a ++ b) = progressWrites a ++ progressWrites b := by
  simp [progressWrites, List.filterMap_append]

theorem statusWrites_append (a b : List Ev) :
    statusWrites (a ++ b) = statusWrites a ++ statusWrites b := by
  simp [statusWrites, List.filterMap_append]

theorem jobWrites_append (a b : List Ev) :
    jobWrites (a ++ b) = jobWrites a ++ jobWrites b := by
  simp [jobWrites, List.filterMap_append]

theorem filesWrites_append (a b : List Ev) :
    filesWrites (a ++ b) = filesWrites a ++ filesWrites b := by
  simp [filesWrites, List.filterMap_append]

theorem filterMap_eq_map_of {α β : Type} (f : α → β) (g : α → Option β) (l : List α)
    (h : ∀ a, g a = some (f a)) : l.filterMap g = l.map f := by
  induction l with
  | nil => rfl
  | cons c rest ih => rw [List.filterMap_cons, h c, List.map_cons, ih]

theorem progressWrites_ttsLoopEvs (n k : Nat) :
    progressWrites (ttsLoopEvs true n k) =
      (List.range k).map (fun i => 30 + 40 * (i + 1) / n) := by
  rw [ttsLoopEvs, recEvs, if_pos rfl, progressWrites, List.filterMap_map]
  exact filterMap_eq_map_of _ _ _ (fun a => rfl)

theorem statusWrites_ttsLoopEvs (n k : Nat) :
    statusWrites (ttsLoopEvs true n k) = [] := by
  rw [ttsLoopEvs, recEvs, if_pos rfl, statusWrites, List.filterMap_map]
  simp [Function.comp, updW]

theorem jobWrites_ttsLoopEvs (n k : Nat) :
    jobWrites (ttsLoopEvs true n k) =
      (List.range k).map (fun i => ⟨some (30 + 40 * (i + 1) / n), none, none⟩) := by
  rw [ttsLoopEvs, recEvs, if_pos rfl, jobWrites, List.filterMap_map]
  exact filterMap_eq_map_of _ _ _ (fun a => rfl)

theorem loopMap_pairwise (n k : Nat) :
    List.Pairwise (· ≤ ·) ((List.range k).map (fun i => 30 + 40 * (i + 1) / n)) := by
  rw [List.pairwise_map]
  apply List.Pairwise.imp ?_ (List.pairwise_lt_range k)
  intro i j hij
  have : 40 * (i + 1) ≤ 40 * (j + 1) := by omega
  have := Nat.div_le_div_right (c := n) this
  omega

theorem loopMap_mem_bounds (n k : Nat) (hk : k ≤ n) :
    ∀ y ∈ (List.range k).map (fun i => 30 + 40 * (i + 1) / n), 30 ≤ y ∧ y ≤ 70 := by
  intro y hy
  rw [List.mem_map] at hy
  obtain ⟨i, hi, rfl⟩ := hy
  rw [List.mem_range] at hi
  constructor
  · exact Nat.le_add_right 30 _
  · have h1 : 40 * (i + 1) ≤ 40 * n := by omega
    have h2 := Nat.div_le_div_right (c := n) h1
    by_cases hn : n = 0
    · subst hn; omega
    · have : 40 * n / n = 40 := Nat.mul_div_cancel 40 (Nat.pos_of_ne_zero hn)
      omega

theorem splitGo_ne_nil : ∀ (k : Nat) (acc s : Str), splitGo k acc s ≠ [] := by
  intro k acc s
  induction s generalizing k acc with
  | nil => cases k <;> simp [splitGo]
  | cons c rest ih =>
    cases k with
    | zero =>
      rw [splitGo]
      by_cases hb : isTerm c && headIsSpace rest
      · simp [hb]
      · simp only [hb, if_false, Bool.false_eq_true]
        exact ih _ _
    | succ k =>
      rw [splitGo]
      exact ih _ _

theorem splitSentences_length_pos (s : Str) : 0 < (splitSentences s).length := by
  rw [splitSentences]
  cases h : splitGo 0 [] s with
  | nil => exact absurd h (splitGo_ne_nil _ _ _)
  | cons t ts => simp

/-! ### The markup-removal rules are identity on metacharacter-free text

`isMeta` collects the characters that can trigger any of the twenty
markup-removal substitutions: every pattern of the chain contains at
least one mandatory occurrence of one of them. -/

def isMeta (c : Char) : Bool :=
  c = btick || c = '*' || c = '_' || c = '#' || c = '[' || c = '~' ||
    c = '<' || c = '>' || c = '-' || c = '+' || c = '|'

theorem mem_of_mem_dropWhile {α : Type} {p : α → Bool} {l : List α} {c : α}
    (h : c ∈ l.dropWhile p) : c ∈ l := by
  induction l with
  | nil => simp at h
  | cons a as ih =>
    rw [List.dropWhile_cons] at h
    by_cases hp : p a
    · simp only [hp, if_true] at h
      exact List.mem_cons_of_mem _ (ih h)
    · simpa [hp] using h

theorem mem_of_mem_dropn {α : Type} {n : Nat} {l : List α} {c : α}
    (h : c ∈ l.drop n) : c ∈ l :=
  List.mem_of_mem_drop h

theorem takeWhile_nil_of_head {α : Type} {p : α → Bool} (l : List α)
    (h : ∀ x ∈ l, p x = false) : l.takeWhile p = [] := by
  cases l with
  | nil => rfl
  | cons a as => simp [List.takeWhile_cons, h a (by simp)]

theorem subGo_eq_self (f : Str → Option (Str × Nat)) (s : Str)
    (h : ∀ (c : Char) (rest : Str), c ∈ s → (∀ x ∈ rest, x ∈ s) → f (c :: rest) = none) :
    subGo f 0 s = s := by
  induction s with
  | nil => rfl
  | cons c cs ih =>
    rw [subGo, h c cs (by simp) (fun x hx => by simp [hx])]
    show c :: subGo f 0 cs = c :: cs
    congr 1
    apply ih
    intro d rest hd hrest
    exact h d rest (by simp [hd]) (fun x hx => by simp [hrest x hx])

theorem subMlGo_eq_self (f : Str → Option (Str × Nat × Bool)) (s : Str)
    (h : ∀ (c : Char) (rest : Str), c ∈ s → (∀ x ∈ rest, x ∈ s) → f (c :: rest) = none) :
    ∀ a, subMlGo f 0 a s = s := by
  induction s with
  | nil => intro a; rfl
  | cons c cs ih =>
    intro a
    have ihr : ∀ a2, subMlGo f 0 a2 cs = cs := by
      apply ih
      intro d rest hd hrest
      exact h d rest (by simp [hd]) (fun x hx => by simp [hrest x hx])
    cases a
    · rw [subMlGo]
      simp [ihr]
    · rw [subMlGo, h c cs (by simp) (fun x hx => by simp [hx])]
      simp [ihr]

theorem noMeta_parts (c : Char) (hc : isMeta c = false) :
    c ≠ btick ∧ c ≠ '*' ∧ c ≠ '_' ∧ c ≠ '#' ∧ c ≠ '[' ∧ c ≠ '~' ∧
      c ≠ '<' ∧ c ≠ '>' ∧ c ≠ '-' ∧ c ≠ '+' ∧ c ≠ '|' := by
  simp [isMeta] at hc
  obtain ⟨⟨⟨⟨⟨⟨⟨⟨⟨⟨h1, h2⟩, h3⟩, h4⟩, h5⟩, h6⟩, h7⟩, h8⟩, h9⟩, h10⟩, h11⟩ := hc
  exact ⟨h1, h2, h3, h4, h5, h6, h7, h8, h9, h10, h11⟩

theorem tryCodeBlock_none (c : Char) (rest : Str) (hc : isMeta c = false) :
    tryCodeBlock (c :: rest) = none := by
  have h1 := (noMeta_parts c hc).1
  match rest with
  | [] => rfl
  | [b] => rfl
  | b :: d :: r => simp [tryCodeBlock, h1]

theorem tryInlineCode_none (c : Char) (rest : Str) (hc : isMeta c = false) :
    tryInlineCode (c :: rest) = none := by
  have h1 := (noMeta_parts c hc).1
  simp [tryInlineCode, h1]

theorem tryLink_none (c : Char) (rest : Str) (hc : isMeta c = false) :
    tryLink (c :: rest) = none := by
  have h5 := (noMeta_parts c hc).2.2.2.2.1
  simp [tryLink, h5]

theorem tryImage_none (c : Char) (rest : Str)
    (hrest : ∀ x ∈ rest, isMeta x = false) :
    tryImage (c :: rest) = none := by
  match rest with
  | [] => rfl
  | d :: r =>
    have h5 := (noMeta_parts d (hrest d (by simp))).2.2.2.2.1
    simp [tryImage, h5]

theorem tryRefLink_none (c : Char) (rest : Str) (hc : isMeta c = false) :
    tryRefLink (c :: rest) = none := by
  have h5 := (noMeta_parts c hc).2.2.2.2.1
  simp [tryRefLink, h5]

theorem tryLinkDef_none (c : Char) (rest : Str) (hc : isMeta c = false) :
    tryLinkDef (c :: rest) = none := by
  have h5 := (noMeta_parts c hc).2.2.2.2.1
  simp [tryLinkDef, h5]

theorem tryHeading_none (c : Char) (rest : Str) (hc : isMeta c = false) :
    tryHeading (c :: rest) = none := by
  have h4 := (noMeta_parts c hc).2.2.2.1
  simp [tryHeading, h4]

theorem tryEmph_none (d : Char) (k : Nat) (hk : k ≠ 0) (c : Char) (rest : Str)
    (hc : c ≠ d) : tryEmph d k (c :: rest) = none := by
  rw [tryEmph]
  have hne : (c :: rest).take k ≠ List.replicate k d := by
    cases k with
    | zero => exact absurd rfl hk
    | succ k =>
      rw [List.take_succ_cons, List.replicate_succ]
      intro h
      exact hc (List.cons_eq_cons.1 h).1
  simp [hne]

theorem tryBullet_none (t : Str) (h : ∀ x ∈ t, isMeta x = false) :
    tryBullet t = none := by
  rw [tryBullet]
  cases hd : t.dropWhile isWs with
  | nil => simp [hd]
  | cons mk r2 =>
    have hmk : mk ∈ t := mem_of_mem_dropWhile (by rw [hd]; simp)
    have hp := noMeta_parts mk (h mk hmk)
    simp [hd, isBullet, hp.2.1, hp.2.2.2.2.2.2.2.2.1, hp.2.2.2.2.2.2.2.2.2.1]

theorem tryHr_none (t : Str) (h : ∀ x ∈ t, isMeta x = false) :
    tryHr t = none := by
  rw [tryHr]
  have hd : (t.dropWhile isWs).takeWhile isHrChar = [] := by
    apply takeWhile_nil_of_head
    intro x hx
    have hp := noMeta_parts x (h x (mem_of_mem_dropWhile hx))
    simp [isHrChar, hp.2.1, hp.2.2.1, hp.2.2.2.2.2.2.2.2.1]
  simp [hd]

theorem tryTag_none (c : Char) (rest : Str) (hc : isMeta c = false) :
    tryTag (c :: rest) = none := by
  have h7 := (noMeta_parts c hc).2.2.2.2.2.2.1
  simp [tryTag, h7]

theorem tryBlockquote_none (c : Char) (rest : Str) (hc : isMeta c = false) :
    tryBlockquote (c :: rest) = none := by
  have h8 := (noMeta_parts c hc).2.2.2.2.2.2.2.1
  simp [tryBlockquote, h8]

theorem tryTableSep_none (t : Str) (h : ∀ x ∈ t, isMeta x = false) :
    tryTableSep t = none := by
  rw [tryTableSep]
  have hd1 : ∀ (c1 c2 : Nat),
      ((((t.drop c1).dropWhile isWs).drop c2).takeWhile (· = '-')) = [] := by
    intro c1 c2
    apply takeWhile_nil_of_head
    intro x hx
    have hxt : x ∈ t := mem_of_mem_dropn (mem_of_mem_dropWhile (mem_of_mem_dropn hx))
    have hp := noMeta_parts x (h x hxt)
    simp [hp.2.2.2.2.2.2.2.2.1]
  simp [hd1]

theorem pipesToSpaces_eq_self (s : Str) (h : ∀ x ∈ s, isMeta x = false) :
    pipesToSpaces s = s := by
  induction s with
  | nil => rfl
  | cons c cs ih =>
    have hp := noMeta_parts c (h c (by simp))
    rw [pipesToSpaces, List.map_cons]
    rw [pipesToSpaces] at ih
    rw [ih (fun x hx => h x (by simp [hx]))]
    simp [hp.2.2.2.2.2.2.2.2.2.2]

theorem removeCodeBlocks_eq_self (s : Str) (h : ∀ x ∈ s, isMeta x = false) :
    removeCodeBlocks s = s :=
  subGo_eq_self _ _ (fun c rest hc _ => tryCodeBlock_none c rest (h c hc))

theorem removeInlineCode_eq_self (s : Str) (h : ∀ x ∈ s, isMeta x = false) :
    removeInlineCode s = s :=
  subGo_eq_self _ _ (fun c rest hc _ => tryInlineCode_none c rest (h c hc))

theorem removeLinks_eq_self (s : Str) (h : ∀ x ∈ s, isMeta x = false) :
    removeLinks s = s :=
  subGo_eq_self _ _ (fun c rest hc _ => tryLink_none c rest (h c hc))

theorem removeImages_eq_self (s : Str) (h : ∀ x ∈ s, isMeta x = false) :
    removeImages s = s :=
  subGo_eq_self _ _ (fun c rest _ hrest =>
    tryImage_none c rest (fun x hx => h x (hrest x hx)))

theorem removeRefLinks_eq_self (s : Str) (h : ∀ x ∈ s, isMeta x = false) :
    removeRefLinks s = s :=
  subGo_eq_self _ _ (fun c rest hc _ => tryRefLink_none c rest (h c hc))

theorem removeLinkDefs_eq_self (s : Str) (h : ∀ x ∈ s, isMeta x = false) :
    removeLinkDefs s = s :=
  subMlGo_eq_self _ _ (fun c rest hc _ => tryLinkDef_none c rest (h c hc)) true

theorem removeHeadings_eq_self (s : Str) (h : ∀ x ∈ s, isMeta x = false) :
    removeHeadings s = s :=
  subMlGo_eq_self _ _ (fun c rest hc _ => tryHeading_none c rest (h c hc)) true

theorem removeBoldItalicStars_eq_self (s : Str) (h : ∀ x ∈ s, isMeta x = false) :
    removeBoldItalicStars s = s :=
  subGo_eq_self _ _ (fun c rest hc _ =>
    tryEmph_none '*' 3 (by simp) c rest (noMeta_parts c (h c hc)).2.1)

theorem removeBoldStars_eq_self (s : Str) (h : ∀ x ∈ s, isMeta x = false) :
    removeBoldStars s = s :=
  subGo_eq_self _ _ (fun c rest hc _ =>
    tryEmph_none '*' 2 (by simp) c rest (noMeta_parts c (h c hc)).2.1)

theorem removeItalicStars_eq_self (s : Str) (h : ∀ x ∈ s, isMeta x = false) :
    removeItalicStars s = s :=
  subGo_eq_self _ _ (fun c rest hc _ =>
    tryEmph_none '*' 1 (by simp) c rest (noMeta_parts c (h c hc)).2.1)

theorem removeBoldItalicUnders_eq_self (s : Str) (h : ∀ x ∈ s, isMeta x = false) :
    removeBoldItalicUnders s = s :=
  subGo_eq_self _ _ (fun c rest hc _ =>
    tryEmph_none '_' 3 (by simp) c rest (noMeta_parts c (h c hc)).2.2.1)

theorem removeBoldUnders_eq_self (s : Str) (h : ∀ x ∈ s, isMeta x = false) :
    removeBoldUnders s = s :=
  subGo_eq_self _ _ (fun c rest hc _ =>
    tryEmph_none '_' 2 (by simp) c rest (noMeta_parts c (h c hc)).2.2.1)

theorem removeItalicUnders_eq_self (s : Str) (h : ∀ x ∈ s, isMeta x = false) :
    removeItalicUnders s = s :=
  subGo_eq_self _ _ (fun c rest hc _ =>
    tryEmph_none '_' 1 (by simp) c rest (noMeta_parts c (h c hc)).2.2.1)

theorem removeStrike_eq_self (s : Str) (h : ∀ x ∈ s, isMeta x = false) :
    removeStrike s = s :=
  subGo_eq_self _ _ (fun c rest hc _ =>
    tryEmph_none '~' 2 (by simp) c rest (noMeta_parts c (h c hc)).2.2.2.2.2.1)

theorem removeBullets_eq_self (s : Str) (h : ∀ x ∈ s, isMeta x = false) :
    removeBullets s = s :=
  subMlGo_eq_self _ _ (fun c rest hc hrest =>
    tryBullet_none (c :: rest) (fun x hx => by
      rcases List.mem_cons.1 hx with rfl | hx
      · exact h x hc
      · exact h x (hrest x hx))) true

theorem removeHr_eq_self (s : Str) (h : ∀ x ∈ s, isMeta x = false) :
    removeHr s = s :=
  subMlGo_eq_self _ _ (fun c rest hc hrest =>
    tryHr_none (c :: rest) (fun x hx => by
      rcases List.mem_cons.1 hx with rfl | hx
      · exact h x hc
      · exact h x (hrest x hx))) true

theorem removeTags_eq_self (s : Str) (h : ∀ x ∈ s, isMeta x = false) :
    removeTags s = s :=
  subGo_eq_self _ _ (fun c rest hc _ => tryTag_none c rest (h c hc))

theorem removeBlockquotes_eq_self (s : Str) (h : ∀ x ∈ s, isMeta x = false) :
    removeBlockquotes s = s :=
  subMlGo_eq_self _ _ (fun c rest hc _ => tryBlockquote_none c rest (h c hc)) true

theorem removeTableSep_eq_self (s : Str) (h : ∀ x ∈ s, isMeta x = false) :
    removeTableSep s = s :=
  subMlGo_eq_self _ _ (fun c rest hc hrest =>
    tryTableSep_none (c :: rest) (fun x hx => by
      rcases List.mem_cons.1 hx with rfl | hx
      · exact h x hc
      · exact h x (hrest x hx))) true

/-! ### Evaluation lemmas for the extractors -/

@[simp] theorem recEvs_true (l : List Ev) : recEvs true l = l := rfl

@[simp] theorem recEvs_false (l : List Ev) : recEvs false l = [] := rfl

@[simp] theorem progressWrites_nil : progressWrites [] = [] := rfl

@[simp] theorem progressWrites_updW (p : Nat) (l : List Ev) :
    progressWrites (updW p :: l) = p :: progressWrites l := rfl

@[simp] theorem progressWrites_updSt (p : Nat) (st : JStatus) (l : List Ev) :
    progressWrites (updSt p st :: l) = p :: progressWrites l := rfl

@[simp] theorem progressWrites_failW (m : Str) (l : List Ev) :
    progressWrites (failW m :: l) = 0 :: progressWrites l := rfl

@[simp] theorem progressWrites_filesWrite (a : Str) (b : Option Str) (l : List Ev) :
    progressWrites (.filesWrite a b :: l) = progressWrites l := rfl

@[simp] theorem progressWrites_removeTemp (l : List Ev) :
    progressWrites (.removeTemp :: l) = progressWrites l := rfl

@[simp] theorem progressWrites_upload (l : List Ev) :
    progressWrites (.upload :: l) = progressWrites l := rfl

@[simp] theorem statusWrites_nil : statusWrites [] = [] := rfl

@[simp] theorem statusWrites_updW (p : Nat) (l : List Ev) :
    statusWrites (updW p :: l) = statusWrites l := rfl

@[simp] theorem statusWrites_updSt (p : Nat) (st : JStatus) (l : List Ev) :
    statusWrites (updSt p st :: l) = st :: statusWrites l := rfl

@[simp] theorem statusWrites_failW (m : Str) (l : List Ev) :
    statusWrites (failW m :: l) = .failed :: statusWrites l := rfl

@[simp] theorem statusWrites_filesWrite (a : Str) (b : Option Str) (l : List Ev) :
    statusWrites (.filesWrite a b :: l) = statusWrites l := rfl

@[simp] theorem statusWrites_removeTemp (l : List Ev) :
    statusWrites (.removeTemp :: l) = statusWrites l := rfl

@[simp] theorem statusWrites_upload (l : List Ev) :
    statusWrites (.upload :: l) = statusWrites l := rfl

@[simp] theorem jobWrites_nil : jobWrites [] = [] := rfl

@[simp] theorem jobWrites_updW (p : Nat) (l : List Ev) :
    jobWrites (updW p :: l) = (⟨some p, none, none⟩ : JWrite) :: jobWrites l := rfl

@[simp] theorem jobWrites_updSt (p : Nat) (st : JStatus) (l : List Ev) :
    jobWrites (updSt p st :: l) = (⟨some p, some st, none⟩ : JWrite) :: jobWrites l := rfl

@[simp] theorem jobWrites_failW (m : Str) (l : List Ev) :
    jobWrites (failW m :: l) = (⟨some 0, some .failed, some m⟩ : JWrite) :: jobWrites l := rfl

@[simp] theorem jobWrites_filesWrite (a : Str) (b : Option Str) (l : List Ev) :
    jobWrites (.filesWrite a b :: l) = jobWrites l := rfl

@[simp] theorem jobWrites_removeTemp (l : List Ev) :
    jobWrites (.removeTemp :: l) = jobWrites l := rfl

@[simp] theorem jobWrites_upload (l : List Ev) :
    jobWrites (.upload :: l) = jobWrites l := rfl

@[simp] theorem filesWrites_nil : filesWrites [] = [] := rfl

@[simp] theorem filesWrites_updW (p : Nat) (l : List Ev) :
    filesWrites (updW p :: l) = filesWrites l := rfl

@[simp] theorem filesWrites_updSt (p : Nat) (st : JStatus) (l : List Ev) :
    filesWrites (updSt p st :: l) = filesWrites l := rfl

@[simp] theorem filesWrites_failW (m : Str) (l : List Ev) :
    filesWrites (failW m :: l) = filesWrites l := rfl

@[simp] theorem filesWrites_filesWrite (a : Str) (b : Option Str) (l : List Ev) :
    filesWrites (.filesWrite a b :: l) = (a, b) :: filesWrites l := rfl

@[simp] theorem filesWrites_removeTemp (l : List Ev) :
    filesWrites (.removeTemp :: l) = filesWrites l := rfl

@[simp] theorem filesWrites_upload (l : List Ev) :
    filesWrites (.upload :: l) = filesWrites l := rfl

@[simp] theorem progressWrites_loopMap (n k : Nat) :
    progressWrites ((List.range k).map (fun i => updW (30 + 40 * (i + 1) / n))) =
      (List.range k).map (fun i => 30 + 40 * (i + 1) / n) := by
  rw [progressWrites, List.filterMap_map]
  exact filterMap_eq_map_of _ _ _ (fun a => rfl)

@[simp] theorem statusWrites_loopMap (n k : Nat) :
    statusWrites ((List.range k).map (fun i => updW (30 + 40 * (i + 1) / n))) = [] := by
  rw [statusWrites, List.filterMap_map]
  simp [Function.comp, updW]

@[simp] theorem jobWrites_loopMap (n k : Nat) :
    jobWrites ((List.range k).map (fun i => updW (30 + 40 * (i + 1) / n))) =
      (List.range k).map (fun i => ⟨some (30 + 40 * (i + 1) / n), none, none⟩) := by
  rw [jobWrites, List.filterMap_map]
  exact filterMap_eq_map_of _ _ _ (fun a => rfl)

@[simp] theorem filesWrites_loopMap (n k : Nat) :
    filesWrites ((List.range k).map (fun i => updW (30 + 40 * (i + 1) / n))) = [] := by
  rw [filesWrites, List.filterMap_map]
  simp [Function.comp, updW]

attribute [simp] progressWrites_append statusWrites_append jobWrites_append filesWrites_append

/-- Rank of a status in the pending → running → terminal order. -/
def statusRank : JStatus → Nat
  | .pending => 0
  | .running => 1
  | .completed => 2
  | .failed => 2

/-- One status write may follow another when it does not move backward in
the pending → running → terminal order and never replaces a terminal
status by a different one. -/
def statusStepOk (a b : JStatus) : Prop :=
  statusRank a ≤ statusRank b ∧ (statusRank a = 2 → b = a)

/-! ### Claim theorems -/

/-- A parse environment whose injected download failure happens after the
job has progressed to 10: the `except` handler then writes progress 0. -/
def envC1 : PEnv := ⟨true, true, true, some (.download, "boom".data), []⟩

/-- Claim C1, counterexample.  The claim states that the sequence of
progress values written to the job record is monotonically
non-decreasing over the job's lifetime, frozen below 100 on failure.
For a parse job whose PDF download raises after the job reached progress
10, the written progress sequence is `[0, 10, 0]` — the `except` handler
of `parse_pdf_task` (lines 541-553) writes `"job_completion": 0` — which
is not non-decreasing and not frozen at its last value. -/
theorem C1_counterexample :
    progressWrites (parseRun envC1).1 = [0, 10, 0] ∧
      ¬ List.Chain' (· ≤ ·) (progressWrites (parseRun envC1).1) := by
  constructor
  · decide
  · rw [show progressWrites (parseRun envC1).1 = [0, 10, 0] from by decide]
    simp [List.chain'_cons]

/-- A supertonic convert environment for a document that was never
parsed: `get_parsed_text` returns `None`. -/
def envC2s : SEnv := ⟨true, none, true, none, 0, true⟩

/-- The ml_worker convert environment for the same situation. -/
def envC2m : CEnv := ⟨true, none, true, true, none, true⟩

/-- Claim C2.  The claim states that a convert submission on a document
with null `parsed_text` returns a precondition-failed result and creates
no job record.  The ml_worker task does exactly that, but the supertonic
task calls `.replace` on the `None` returned by `get_parsed_text`
(line 71) and therefore raises `AttributeError` instead of returning its
precondition-failed dictionary; no record is created in either case. -/
theorem C2_theorem :
    supertonicRun envC2s = ([], .raised attrErrorMsg) ∧
      convertRun envC2m = ([], .retErr noParsedTextMsg) := by
  constructor <;> decide

/-- Claim C3, counterexample.  The claim states the boundary rule as
terminal punctuation followed by whitespace, but the source pattern
`(?<=[.!?]) +` only matches runs of literal spaces: a period followed by
a newline is not a boundary for the code, while the
whitespace-boundary specification splits there. -/
theorem C3_counterexample :
    splitSentences "Hi.\nBye".data ≠ splitSpecWs "Hi.\nBye".data := by
  rw [show splitSpecWs "Hi.\nBye".data = ["Hi.".data, "Bye".data] from by
    rw [splitSpecWs, splitSpecBy_some _ _ _ 2 (by decide), splitSpecBy_none _ _ _ (by decide)]
    decide]
  decide

/-- Claim C3, amended: the splitting operation used by both the parse
and the convert stage cuts a sentence immediately after a `.`, `!` or
`?` followed by one or more literal space characters (other whitespace
such as newlines or tabs is not a boundary), the separating spaces being
consumed, and the trailing remainder with no such boundary is its own
sentence — `splitSentences` equals the declarative space-boundary
specification on every input. -/
theorem C3_amended : ∀ s : Str, splitSentences s = splitSpecSpace s :=
  splitSentences_eq_splitSpecSpace

/-- Claim C4.  The normalizer `clean_markdown_for_tts` is a total
function in this embedding, returns equal outputs on equal inputs, and
maps the empty input to the empty output. -/
theorem C4_theorem :
    clean_markdown_for_tts [] = [] ∧
      ∀ s t : Str, s = t → clean_markdown_for_tts s = clean_markdown_for_tts t := by
  refine ⟨clean_nil, ?_⟩
  intro s t h
  rw [h]

/-- Witness for C4 at concrete inputs. -/
theorem C4_witness :
    clean_markdown_for_tts [] = [] ∧
      clean_markdown_for_tts "a".data = clean_markdown_for_tts "a".data :=
  ⟨C4_theorem.1, C4_theorem.2 _ _ rfl⟩

/-- Claim C5, counterexample.  The claim states that for every markup
input the normalizer's output contains no code-fence syntax.  An
unclosed fence is left in place by every rule of the chain: the input
consisting of three backquotes followed by `x` normalises to itself, so
the output still contains a code fence. -/
theorem C5_counterexample :
    containsSeq [btick, btick, btick] (clean_markdown_for_tts ([btick, btick, btick, 'x'])) = true := by
  decide

/-- Claim C5, amended: the universal removal claim fails (see the
counterexample: unmatched markup such as an unclosed code fence, or
markup reintroduced at a line start by an earlier removal, survives to
the output), but on every input containing none of the markup
metacharacters — backquote, asterisk, underscore, hash, opening bracket,
tilde, angle brackets, hyphen, plus, pipe — all twenty markup-removal
substitutions are the identity and the normalizer only normalises
whitespace: every plain-text token, in particular numbered-list markers
such as `1.` and their digits, is preserved verbatim. -/
theorem C5_amended (s : Str) (h : ∀ c ∈ s, isMeta c = false) :
    clean_markdown_for_tts s = wsNormalize s := by
  by_cases hs : s = []
  · subst hs
    rw [clean_nil]
    rfl
  · rw [clean_markdown_for_tts, if_neg hs, removeCodeBlocks_eq_self _ h,
      removeInlineCode_eq_self _ h, removeLinks_eq_self _ h, removeImages_eq_self _ h,
      removeRefLinks_eq_self _ h, removeLinkDefs_eq_self _ h, removeHeadings_eq_self _ h,
      removeBoldItalicStars_eq_self _ h, removeBoldStars_eq_self _ h,
      removeItalicStars_eq_self _ h, removeBoldItalicUnders_eq_self _ h,
      removeBoldUnders_eq_self _ h, removeItalicUnders_eq_self _ h,
      removeStrike_eq_self _ h, removeBullets_eq_self _ h, removeHr_eq_self _ h,
      removeTags_eq_self _ h, removeBlockquotes_eq_self _ h, removeTableSep_eq_self _ h,
      pipesToSpaces_eq_self _ h, wsNormalize]

/-- A plain-text input with numbered-list markers, for the C5 witness. -/
def c5wInput : Str := "1. buy  milk 2. eggs and 3 cases of tea.".data

/-- Witness for C5's amended statement at a concrete metacharacter-free
input. -/
theorem C5_witness : clean_markdown_for_tts c5wInput = wsNormalize c5wInput :=
  C5_amended c5wInput (by decide)

/-- A supertonic convert environment meeting every precondition except
the artifact size: the encoded MP3 is one byte over the 50 MB ceiling. -/
def envC6 : SEnv := ⟨true, some "hi".data, true, none, 50 * 1024 * 1024 + 1, true⟩

/-- Claim C6.  When the encoded MP3 of a supertonic convert job exceeds
the 50 MB storage ceiling (and the job reached the size check), the job
is marked failed, the last job write carries the explicit size-limit
error message, the task re-raises, and no upload is ever attempted. -/
theorem C6_theorem (e : SEnv) (t0 : Str) (h1 : e.fileInfoOk = true)
    (h2 : e.parsedText = some t0) (h3 : e.recordCreated = true) (h4 : e.failAt = none)
    (h5 : 50 * 1024 * 1024 < e.mp3SizeBytes) :
    (supertonicRun e).2 = .raised sizeLimitMsg ∧
      Ev.upload ∉ (supertonicRun e).1 ∧
      JStatus.failed ∈ statusWrites (supertonicRun e).1 ∧
      (jobWrites (supertonicRun e).1).getLast? =
        some ⟨some 0, some .failed, some sizeLimitMsg⟩ := by
  obtain ⟨fio, pt, rc, fa, sz, uo⟩ := e
  simp only at h1 h2 h3 h4 h5
  subst h1 h2 h3 h4
  have hm := massage_ne_nil t0
  simp [supertonicRun, hm, h5, recEvs, updSt, failW, statusWrites, jobWrites,
    List.filterMap_cons, Ev.upload]

/-- Witness for C6 at a concrete environment. -/
theorem C6_witness :
    (supertonicRun envC6).2 = .raised sizeLimitMsg ∧
      Ev.upload ∉ (supertonicRun envC6).1 ∧
      JStatus.failed ∈ statusWrites (supertonicRun envC6).1 ∧
      (jobWrites (supertonicRun envC6).1).getLast? =
        some ⟨some 0, some .failed, some sizeLimitMsg⟩ :=
  C6_theorem envC6 "hi".data rfl rfl rfl rfl (by decide)

/-- A parse environment whose marker conversion step raises. -/
def envC7 : PEnv := ⟨true, true, true, some (.convRun, "CUDA out of memory".data), "x".data⟩

/-- Claim C7.  When any of the fallible steps of `parse_pdf_task`
raises, the job record's final write marks it failed with that
exception's message as the error message, the exception is re-raised to
the Celery infrastructure, and the temporary download is removed
whenever it had been created (the download step fails before the
temporary file exists; the converter steps fail after). -/
theorem C7_theorem (e : PEnv) (st : PFail) (m : Str) (h1 : e.fileInfoOk = true)
    (h2 : e.recordCreated = true) (h3 : e.cudaAvailable = true)
    (h4 : e.failAt = some (st, m)) :
    (parseRun e).2 = .raised m ∧
      (jobWrites (parseRun e).1).getLast? = some ⟨some 0, some .failed, some m⟩ ∧
      (st = .download → Ev.removeTemp ∉ (parseRun e).1) ∧
      (st ≠ .download → Ev.removeTemp ∈ (parseRun e).1) := by
  obtain ⟨fio, rc, cuda, fa, text⟩ := e
  simp only at h1 h2 h3 h4
  subst h1 h2 h3 h4
  cases st <;>
    simp [parseRun, recEvs, updSt, updW, failW, jobWrites, List.filterMap_cons]

/-- Witness for C7 at a concrete environment. -/
theorem C7_witness :
    (parseRun envC7).2 = .raised "CUDA out of memory".data ∧
      (jobWrites (parseRun envC7).1).getLast? =
        some ⟨some 0, some .failed, some "CUDA out of memory".data⟩ ∧
      (PFail.convRun = PFail.download → Ev.removeTemp ∉ (parseRun envC7).1) ∧
      (PFail.convRun ≠ PFail.download → Ev.removeTemp ∈ (parseRun envC7).1) :=
  C7_theorem envC7 .convRun "CUDA out of memory".data rfl rfl rfl rfl

/-- A parse environment on a worker without CUDA: the dev-mode branch
completes the job immediately. -/
def envC8 : PEnv := ⟨true, true, false, none, []⟩

/-- Claim C8, counterexample.  The claim states that no job record
reaches a terminal status without having passed through `running`.  On a
worker without a CUDA device, `parse_pdf_task` (lines 429-433)
finalizes the job as completed directly from `pending`: the status
sequence is `[pending, completed]` and `running` is never written. -/
theorem C8_counterexample :
    JStatus.completed ∈ statusWrites (parseRun envC8).1 ∧
      JStatus.running ∉ statusWrites (parseRun envC8).1 := by
  decide

/-- A no-failure parse environment whose extracted text is empty, so the
normalised text is empty as well. -/
def envC9 : PEnv := ⟨true, true, true, none, []⟩

/-- Claim C9, counterexample.  The claim states that on successful
completion both derived text fields are written exactly once.
`finalize_parsing` (worker_utils.py lines 106-137) only updates the
`files` table when the cleaned text is truthy: when the extracted text
is empty, the job still completes at 100 but no `files`-table write
happens at all. -/
theorem C9_counterexample :
    (parseRun envC9).2 = .retOk ∧
      (statusWrites (parseRun envC9).1).getLast? = some .completed ∧
      filesWrites (parseRun envC9).1 = [] := by
  decide

/-- The environment of claim C10: parsed text absent. -/
def envC10 : SEnv := ⟨true, none, true, none, 0, true⟩

/-- Claim C10.  In the supertonic convert task, a file whose stored
parsed text is absent makes the task raise (the `AttributeError` of
`None.replace`) before any conversion record is created; and the task's
own missing-text branch is unreachable for every input, because line 72
unconditionally appends a terminal period, so the massaged text is never
empty and the task never returns the missing-text error. -/
theorem C10_theorem :
    supertonicRun envC10 = ([], .raised attrErrorMsg) ∧
      (∀ t : Str, massage t ≠ []) ∧
      (∀ (e : SEnv) (t0 : Str), e.parsedText = some t0 →
        (supertonicRun e).2 ≠ .retErr noParsedTextMsg) := by
  refine ⟨by decide, massage_ne_nil, ?_⟩
  intro e t0 h
  obtain ⟨fio, pt, rc, fa, sz, uo⟩ := e
  simp only at h
  subst h
  have hm := massage_ne_nil t0
  cases fio
  · simp [supertonicRun]
    decide
  · cases fa with
    | none =>
      by_cases hsz : 50 * 1024 * 1024 < sz <;>
        simp [supertonicRun, hm, hsz, recEvs]
    | some p =>
      obtain ⟨sf, m⟩ := p
      simp [supertonicRun, hm, recEvs]

/-- Witness for C10's quantified parts at concrete inputs. -/
theorem C10_witness :
    massage "a".data ≠ [] ∧
      (supertonicRun ⟨true, some "a".data, true, none, 0, true⟩).2 ≠
        .retErr noParsedTextMsg :=
  ⟨C10_theorem.2.1 "a".data, C10_theorem.2.2 _ "a".data rfl⟩

/-- Claim C8, amended: in every environment, the sequence of status
values written to a job record never moves backward in the
pending → running → terminal order and never replaces a terminal status
by a different one; however a job can jump from pending directly to a
terminal status without passing through running (the no-CUDA dev-mode
branch completes immediately, see the counterexample). -/
theorem C8_amended (pe : PEnv) (ce : CEnv) (se : SEnv) :
    List.Chain' statusStepOk (statusWrites (parseRun pe).1) ∧
      List.Chain' statusStepOk (statusWrites (convertRun ce).1) ∧
      List.Chain' statusStepOk (statusWrites (supertonicRun se).1) := by
  refine ⟨?_, ?_, ?_⟩
  · obtain ⟨fio, rc, cuda, fa, text⟩ := pe
    cases fio
    · simp [parseRun]
    · cases cuda
      · cases rc <;>
          simp [parseRun, List.chain'_cons, statusStepOk, statusRank]
      · cases fa with
        | none =>
          cases rc
          · by_cases hcl : clean_markdown_for_tts text = [] <;>
              simp [parseRun, hcl, List.chain'_cons, statusStepOk, statusRank]
          · by_cases hcl : clean_markdown_for_tts text = [] <;>
              simp [parseRun, hcl, List.chain'_cons, statusStepOk, statusRank]
        | some p =>
          obtain ⟨st, m⟩ := p
          cases st <;> cases rc <;>
            simp [parseRun, List.chain'_cons, statusStepOk, statusRank]
  · obtain ⟨fio, pt, rc, cuda, fa, uo⟩ := ce
    cases fio
    · simp [convertRun]
    · cases pt with
      | none => simp [convertRun]
      | some t =>
        by_cases ht : t = []
        · simp [convertRun, ht]
        · cases cuda
          · cases rc <;>
              simp [convertRun, ht, List.chain'_cons, statusStepOk, statusRank]
          · cases fa with
            | none =>
              cases rc <;> cases uo <;>
                simp [convertRun, convertTailEvs, ttsLoopEvs, ht,
                  List.chain'_cons, statusStepOk, statusRank]
            | some p =>
              obtain ⟨cf, m⟩ := p
              cases cf with
              | modelLoad =>
                cases rc <;>
                  simp [convertRun, ht, List.chain'_cons, statusStepOk, statusRank]
              | ttsGen k =>
                by_cases hk : k < (splitSentences t).length
                · cases rc <;>
                    simp [convertRun, ttsLoopEvs, ht, hk,
                      List.chain'_cons, statusStepOk, statusRank]
                · cases rc <;> cases uo <;>
                    simp [convertRun, convertTailEvs, ttsLoopEvs, ht, hk,
                      List.chain'_cons, statusStepOk, statusRank]
              | saveWav =>
                cases rc <;>
                  simp [convertRun, ttsLoopEvs, ht,
                    List.chain'_cons, statusStepOk, statusRank]
              | toMp3 =>
                cases rc <;>
                  simp [convertRun, ttsLoopEvs, ht,
                    List.chain'_cons, statusStepOk, statusRank]
  · obtain ⟨fio, pt, rc, fa, sz, uo⟩ := se
    cases fio
    · simp [supertonicRun]
    · cases pt with
      | none => simp [supertonicRun]
      | some t0 =>
        have hm := massage_ne_nil t0
        cases fa with
        | none =>
          by_cases hsz : 50 * 1024 * 1024 < sz
          · cases rc <;>
              simp [supertonicRun, hm, hsz, List.chain'_cons, statusStepOk, statusRank]
          · cases rc <;> cases uo <;>
              simp [supertonicRun, hm, hsz, List.chain'_cons, statusStepOk, statusRank]
        | some p =>
          obtain ⟨sf, m⟩ := p
          cases rc <;>
            simp [supertonicRun, hm, List.chain'_cons, statusStepOk, statusRank]

/-- A successful parse environment with non-trivial text, for the C9
witness. -/
def envC9w : PEnv := ⟨true, true, true, none, "Hello there. Bye.".data⟩

/-- Claim C9, amended: when a parse job on a CUDA worker completes with
no failure, then if the normalised text is non-empty the `files` table
receives exactly one write, carrying `parsed_text` equal to
`clean_markdown_for_tts` of the extracted text and `raw_markdown` equal
to the extracted text unchanged; if the normalised text is empty, the
job still completes but no `files`-table write happens at all. -/
theorem C9_amended (e : PEnv) (h1 : e.fileInfoOk = true) (h2 : e.recordCreated = true)
    (h3 : e.cudaAvailable = true) (h4 : e.failAt = none) :
    (parseRun e).2 = .retOk ∧
      (clean_markdown_for_tts e.text ≠ [] →
        filesWrites (parseRun e).1 = [(clean_markdown_for_tts e.text, some e.text)]) ∧
      (clean_markdown_for_tts e.text = [] → filesWrites (parseRun e).1 = []) := by
  obtain ⟨fio, rc, cuda, fa, text⟩ := e
  simp only at h1 h2 h3 h4
  subst h1 h2 h3 h4
  refine ⟨by simp [parseRun], ?_, ?_⟩
  · intro hne
    have htext : text ≠ [] := clean_ne_nil_of_ne hne
    simp [parseRun, hne, htext]
  · intro heq
    simp [parseRun, heq]

theorem getLast?_cons_of_ne {α : Type} (a : α) (l : List α) (h : l ≠ []) :
    (a :: l).getLast? = l.getLast? := by
  cases l with
  | nil => exact absurd rfl h
  | cons b t => simp [List.getLast?_cons]

theorem getLast?_append_of {α : Type} (l₁ l₂ : List α) (x : α)
    (h : l₂.getLast? = some x) : (l₁ ++ l₂).getLast? = some x := by
  have hne : l₂ ≠ [] := by
    intro hc; rw [hc] at h; simp at h
  rw [getLast?_append_right _ hne]
  exact h

theorem chain_le_convert_progress (n : Nat) :
    List.Chain' (· ≤ ·) (0 :: 10 :: 20 :: 30 ::
      (List.map (fun i => 30 + 40 * (i + 1) / n) (List.range n) ++ [75, 85, 95, 100, 100])) := by
  have hb := loopMap_mem_bounds n n (le_refl n)
  have key : ∀ y ∈ List.map (fun i => 30 + 40 * (i + 1) / n) (List.range n)
      ++ [75, 85, 95, 100, 100], 30 ≤ y := by
    intro y hy
    rcases List.mem_append.1 hy with h | h
    · exact (hb y h).1
    · simp [List.mem_cons] at h
      omega
  have hML : List.Pairwise (· ≤ ·) (List.map (fun i => 30 + 40 * (i + 1) / n) (List.range n)
      ++ [75, 85, 95, 100, 100]) := by
    rw [List.pairwise_append]
    refine ⟨loopMap_pairwise n n, ?_, ?_⟩
    · simp [List.pairwise_cons]
    · intro x hx y hy
      have h70 := (hb x hx).2
      simp [List.mem_cons] at hy
      omega
  apply List.Pairwise.chain'
  rw [List.pairwise_cons, List.pairwise_cons, List.pairwise_cons, List.pairwise_cons]
  refine ⟨?_, ?_, ?_, ?_, hML⟩
  · intro y hy
    simp only [List.mem_cons] at hy
    rcases hy with rfl | rfl | rfl | hy
    · omega
    · omega
    · omega
    · have := key y hy; omega
  · intro y hy
    simp only [List.mem_cons] at hy
    rcases hy with rfl | rfl | hy
    · omega
    · omega
    · have := key y hy; omega
  · intro y hy
    simp only [List.mem_cons] at hy
    rcases hy with rfl | hy
    · omega
    · have := key y hy; omega
  · intro y hy
    have := key y hy; omega

theorem getLast_convert_progress (n : Nat) :
    (0 :: 10 :: 20 :: 30 ::
      (List.map (fun i => 30 + 40 * (i + 1) / n) (List.range n)
        ++ [75, 85, 95, 100, 100]) : List Nat).getLast? = some 100 := by
  rw [getLast?_cons_of_ne _ _ (by simp), getLast?_cons_of_ne _ _ (by simp),
    getLast?_cons_of_ne _ _ (by simp), getLast?_cons_of_ne _ _ (by simp),
    getLast?_append_right _ (by simp)]
  rfl

theorem getLast?_one {α : Type} (a : α) : ([a] : List α).getLast? = some a := rfl

@[simp] theorem progressWrites_ite_files (P : Prop) [Decidable P] (a : Str) (b : Option Str) :
    progressWrites (if P then [Ev.filesWrite a b] else []) = [] := by
  by_cases h : P <;> simp [h]

@[simp] theorem progressWrites_ite_files_flip (P : Prop) [Decidable P] (a : Str) (b : Option Str) :
    progressWrites (if P then [] else [Ev.filesWrite a b]) = [] := by
  by_cases h : P <;> simp [h]

@[simp] theorem statusWrites_ite_files (P : Prop) [Decidable P] (a : Str) (b : Option Str) :
    statusWrites (if P then [Ev.filesWrite a b] else []) = [] := by
  by_cases h : P <;> simp [h]

@[simp] theorem statusWrites_ite_files_flip (P : Prop) [Decidable P] (a : Str) (b : Option Str) :
    statusWrites (if P then [] else [Ev.filesWrite a b]) = [] := by
  by_cases h : P <;> simp [h]

@[simp] theorem jobWrites_ite_files (P : Prop) [Decidable P] (a : Str) (b : Option Str) :
    jobWrites (if P then [Ev.filesWrite a b] else []) = [] := by
  by_cases h : P <;> simp [h]

@[simp] theorem jobWrites_ite_files_flip (P : Prop) [Decidable P] (a : Str) (b : Option Str) :
    jobWrites (if P then [] else [Ev.filesWrite a b]) = [] := by
  by_cases h : P <;> simp [h]

/-- Claim C1, amended: for every parse or convert job whose record was
created, the progress writes are monotonically non-decreasing and end at
exactly 100 whenever the task returns normally (including the no-CUDA
dev-mode return, and including the convert tasks' upload-failure path,
which marks the job failed yet still writes progress 100); but when the
task raises, the job is not frozen at its last progress value: the
`except` handler's final write resets progress to 0 together with status
failed and the exception's message.  (For the supertonic task the
raised-case clause assumes the parsed text was present, since the
`AttributeError` of a missing text is raised before the record
exists.) -/
theorem C1_amended (pe : PEnv) (ce : CEnv) (se : SEnv)
    (hp : pe.recordCreated = true) (hc : ce.recordCreated = true)
    (hs : se.recordCreated = true) :
    ((parseRun pe).2 = .retOk ∨ (parseRun pe).2 = .retDev →
        List.Chain' (· ≤ ·) (progressWrites (parseRun pe).1) ∧
          (progressWrites (parseRun pe).1).getLast? = some 100) ∧
      (∀ m, (parseRun pe).2 = .raised m →
        (jobWrites (parseRun pe).1).getLast? = some ⟨some 0, some .failed, some m⟩) ∧
      ((convertRun ce).2 = .retOk ∨ (convertRun ce).2 = .retDev →
        List.Chain' (· ≤ ·) (progressWrites (convertRun ce).1) ∧
          (progressWrites (convertRun ce).1).getLast? = some 100) ∧
      (∀ m, (convertRun ce).2 = .raised m →
        (jobWrites (convertRun ce).1).getLast? = some ⟨some 0, some .failed, some m⟩) ∧
      ((supertonicRun se).2 = .retOk →
        List.Chain' (· ≤ ·) (progressWrites (supertonicRun se).1) ∧
          (progressWrites (supertonicRun se).1).getLast? = some 100) ∧
      (∀ m t0, se.parsedText = some t0 → (supertonicRun se).2 = .raised m →
        (jobWrites (supertonicRun se).1).getLast? = some ⟨some 0, some .failed, some m⟩) := by
  have HP : ((parseRun pe).2 = .retOk ∨ (parseRun pe).2 = .retDev →
      List.Chain' (· ≤ ·) (progressWrites (parseRun pe).1) ∧
        (progressWrites (parseRun pe).1).getLast? = some 100) ∧
      (∀ m, (parseRun pe).2 = .raised m →
        (jobWrites (parseRun pe).1).getLast? = some ⟨some 0, some .failed, some m⟩) := by
    obtain ⟨fio, rc, cuda, fa, text⟩ := pe
    simp only at hp
    subst hp
    cases fio
    · constructor
      · intro h; simp [parseRun] at h
      · intro m hm; simp [parseRun] at hm
    · cases cuda
      · constructor
        · intro h
          constructor
          · rw [show progressWrites (parseRun ⟨true, true, false, fa, text⟩).1 = [0, 100]
              from by simp [parseRun]]
            simp [List.chain'_cons]
          · rw [show progressWrites (parseRun ⟨true, true, false, fa, text⟩).1 = [0, 100]
              from by simp [parseRun]]
            rfl
        · intro m hm; simp [parseRun] at hm
      · cases fa with
        | none =>
          constructor
          · intro h
            constructor
            · rw [show progressWrites (parseRun ⟨true, true, true, none, text⟩).1
                  = [0, 10, 20, 25, 40, 65, 75, 90, 100, 100] from by simp [parseRun]]
              simp [List.chain'_cons]
            · rw [show progressWrites (parseRun ⟨true, true, true, none, text⟩).1
                  = [0, 10, 20, 25, 40, 65, 75, 90, 100, 100] from by simp [parseRun]]
              rfl
          · intro m hm; simp [parseRun] at hm
        | some p =>
          obtain ⟨st, m0⟩ := p
          cases st <;> constructor <;>
            first
            | (intro h; simp [parseRun] at h)
            | (intro m hm
               simp only [parseRun] at hm
               simp at hm
               subst hm
               simp [parseRun, getLast?_cons_of_ne, getLast?_append_right, getLast?_one])
  have HC : ((convertRun ce).2 = .retOk ∨ (convertRun ce).2 = .retDev →
      List.Chain' (· ≤ ·) (progressWrites (convertRun ce).1) ∧
        (progressWrites (convertRun ce).1).getLast? = some 100) ∧
      (∀ m, (convertRun ce).2 = .raised m →
        (jobWrites (convertRun ce).1).getLast? = some ⟨some 0, some .failed, some m⟩) := by
    obtain ⟨fio, pt, rc, cuda, fa, uo⟩ := ce
    simp only at hc
    subst hc
    cases fio
    · constructor
      · intro h; simp [convertRun] at h
      · intro m hm; simp [convertRun] at hm
    · cases pt with
      | none =>
        constructor
        · intro h; simp [convertRun] at h
        · intro m hm; simp [convertRun] at hm
      | some t =>
        by_cases ht : t = []
        · constructor
          · intro h; simp [convertRun, ht] at h
          · intro m hm; simp [convertRun, ht] at hm
        · cases cuda
          · constructor
            · intro h
              constructor
              · rw [show progressWrites (convertRun ⟨true, some t, true, false, fa, uo⟩).1
                    = [0, 100] from by simp [convertRun, ht]]
                simp [List.chain'_cons]
              · rw [show progressWrites (convertRun ⟨true, some t, true, false, fa, uo⟩).1
                    = [0, 100] from by simp [convertRun, ht]]
                rfl
            · intro m hm; simp [convertRun, ht] at hm
          · cases fa with
            | none =>
              constructor
              · intro h
                constructor
                · rw [show progressWrites (convertRun ⟨true, some t, true, true, none, uo⟩).1
                      = 0 :: 10 :: 20 :: 30 ::
                        (List.map (fun i => 30 + 40 * (i + 1) / (splitSentences t).length)
                          (List.range (splitSentences t).length) ++ [75, 85, 95, 100, 100])
                      from by simp [convertRun, convertTailEvs, ttsLoopEvs, ht]]
                  exact chain_le_convert_progress _
                · simp [convertRun, convertTailEvs, ttsLoopEvs, ht,
                    getLast?_cons_of_ne, getLast?_append_right, getLast?_one]
              · intro m hm; simp [convertRun, convertTailEvs, ht] at hm
            | some p =>
              obtain ⟨cf, m0⟩ := p
              cases cf with
              | modelLoad =>
                constructor
                · intro h; simp [convertRun, ht] at h
                · intro m hm
                  simp [convertRun, ht] at hm
                  subst hm
                  simp [convertRun, ht, getLast?_cons_of_ne, getLast?_append_right,
                    getLast?_one]
              | ttsGen k =>
                by_cases hk : k < (splitSentences t).length
                · constructor
                  · intro h; simp [convertRun, ht, hk] at h
                  · intro m hm
                    simp [convertRun, ht, hk] at hm
                    subst hm
                    simp [convertRun, ttsLoopEvs, ht, hk, getLast?_cons_of_ne,
                      getLast?_append_right, getLast?_one]
                · constructor
                  · intro h
                    constructor
                    · rw [show progressWrites
                            (convertRun ⟨true, some t, true, true, some (.ttsGen k, m0), uo⟩).1
                          = 0 :: 10 :: 20 :: 30 ::
                            (List.map (fun i => 30 + 40 * (i + 1) / (splitSentences t).length)
                              (List.range (splitSentences t).length) ++ [75, 85, 95, 100, 100])
                          from by simp [convertRun, convertTailEvs, ttsLoopEvs, ht, hk]]
                      exact chain_le_convert_progress _
                    · simp [convertRun, convertTailEvs, ttsLoopEvs, ht, hk,
                        getLast?_cons_of_ne, getLast?_append_right, getLast?_one]
                  · intro m hm; simp [convertRun, convertTailEvs, ht, hk] at hm
              | saveWav =>
                constructor
                · intro h; simp [convertRun, ht] at h
                · intro m hm
                  simp [convertRun, ht] at hm
                  subst hm
                  simp [convertRun, ttsLoopEvs, ht, getLast?_cons_of_ne,
                    getLast?_append_right, getLast?_one]
              | toMp3 =>
                constructor
                · intro h; simp [convertRun, ht] at h
                · intro m hm
                  simp [convertRun, ht] at hm
                  subst hm
                  simp [convertRun, ttsLoopEvs, ht, getLast?_cons_of_ne,
                    getLast?_append_right, getLast?_one]
  have HS : ((supertonicRun se).2 = .retOk →
      List.Chain' (· ≤ ·) (progressWrites (supertonicRun se).1) ∧
        (progressWrites (supertonicRun se).1).getLast? = some 100) ∧
      (∀ m t0, se.parsedText = some t0 → (supertonicRun se).2 = .raised m →
        (jobWrites (supertonicRun se).1).getLast? = some ⟨some 0, some .failed, some m⟩) := by
    obtain ⟨fio, pt, rc, fa, sz, uo⟩ := se
    simp only at hs
    subst hs
    cases fio
    · constructor
      · intro h; simp [supertonicRun] at h
      · intro m t0 h0 hm; simp [supertonicRun] at hm
    · cases pt with
      | none =>
        constructor
        · intro h; simp [supertonicRun] at h
        · intro m t0 h0 hm; simp at h0
      | some t1 =>
        have hmn := massage_ne_nil t1
        cases fa with
        | none =>
          by_cases hsz : 50 * 1024 * 1024 < sz
          · constructor
            · intro h; simp [supertonicRun, hmn, hsz] at h
            · intro m t0 h0 hm
              simp [supertonicRun, hmn, hsz] at hm
              subst hm
              simp [supertonicRun, hmn, hsz, getLast?_cons_of_ne, getLast?_append_right,
                getLast?_one]
          · constructor
            · intro h
              constructor
              · rw [show progressWrites (supertonicRun ⟨true, some t1, true, none, sz, uo⟩).1
                    = [0, 10, 85, 95, 100, 100] from by simp [supertonicRun, hmn, hsz]]
                simp [List.chain'_cons]
              · rw [show progressWrites (supertonicRun ⟨true, some t1, true, none, sz, uo⟩).1
                    = [0, 10, 85, 95, 100, 100] from by simp [supertonicRun, hmn, hsz]]
                rfl
            · intro m t0 h0 hm; simp [supertonicRun, hmn, hsz] at hm
        | some p =>
          obtain ⟨sf, m0⟩ := p
          constructor
          · intro h; simp [supertonicRun, hmn] at h
          · intro m t0 h0 hm
            simp [supertonicRun, hmn] at hm
            subst hm
            simp [supertonicRun, hmn, getLast?_cons_of_ne, getLast?_append_right,
              getLast?_one]
  exact ⟨HP.1, HP.2, HC.1, HC.2, HS.1, HS.2⟩

/-- Concrete environments for the C1 witness. -/
def envC1wp : PEnv := ⟨true, true, true, none, "Hi.".data⟩

def envC1wc : CEnv := ⟨true, some "Aa. Bb.".data, true, true, none, true⟩

def envC1ws : SEnv := ⟨true, some "x".data, true, none, 0, true⟩

/-- Witness for C1's amended statement at concrete environments. -/
theorem C1_witness :
    ((parseRun envC1wp).2 = .retOk ∨ (parseRun envC1wp).2 = .retDev →
        List.Chain' (· ≤ ·) (progressWrites (parseRun envC1wp).1) ∧
          (progressWrites (parseRun envC1wp).1).getLast? = some 100) ∧
      (∀ m, (parseRun envC1wp).2 = .raised m →
        (jobWrites (parseRun envC1wp).1).getLast? = some ⟨some 0, some .failed, some m⟩) ∧
      ((convertRun envC1wc).2 = .retOk ∨ (convertRun envC1wc).2 = .retDev →
        List.Chain' (· ≤ ·) (progressWrites (convertRun envC1wc).1) ∧
          (progressWrites (convertRun envC1wc).1).getLast? = some 100) ∧
      (∀ m, (convertRun envC1wc).2 = .raised m →
        (jobWrites (convertRun envC1wc).1).getLast? = some ⟨some 0, some .failed, some m⟩) ∧
      ((supertonicRun envC1ws).2 = .retOk →
        List.Chain' (· ≤ ·) (progressWrites (supertonicRun envC1ws).1) ∧
          (progressWrites (supertonicRun envC1ws).1).getLast? = some 100) ∧
      (∀ m t0, envC1ws.parsedText = some t0 → (supertonicRun envC1ws).2 = .raised m →
        (jobWrites (supertonicRun envC1ws).1).getLast? =
          some ⟨some 0, some .failed, some m⟩) :=
  C1_amended envC1wp envC1wc envC1ws rfl rfl rfl

/-- Witness for C9's amended statement at a concrete environment. -/
theorem C9_witness :
    (parseRun envC9w).2 = .retOk ∧
      (clean_markdown_for_tts envC9w.text ≠ [] →
        filesWrites (parseRun envC9w).1 =
          [(clean_markdown_for_tts envC9w.text, some envC9w.text)]) ∧
      (clean_markdown_for_tts envC9w.text = [] → filesWrites (parseRun envC9w).1 = []) :=
  C9_amended envC9w rfl rfl rfl rfl

end TTS
